import Mathlib

/-
Verification of the craftdriver protocol/session core against its
natural-language specification.  The TypeScript sources are shallowly
embedded: strings are `String`/`List Char`, JS `Map`s in insertion order are
association lists, promise resolution is recorded as an explicit outcome
log, and exceptions are `Except`/explicit catch branches.
-/

namespace Craft

/-! ## Condition/Wait engine (src/lib/service.ts, WebDriverWait.until)

The loop body is
  `const result = await condition(driver);
   if (result || result === 0 || result === false) return result;`
with a thrown condition error stored in `lastErr` (never cleared), and on
deadline expiry
  `throw new Error(lastErr ? errMsg + ": " + lastErr.message : errMsg)`.
Time is abstracted to the finite list of poll attempts that happen before
the deadline passes. -/

/-- JavaScript values a condition can produce, as far as the wait loop's
test distinguishes them. -/
inductive JSVal where
  | bool (b : Bool)
  | num (n : Int)
  | str (s : String)
  | undef
  | nullV
  | obj (o : Nat)
deriving DecidableEq, Repr

/-- JavaScript truthiness of a `JSVal`. -/
def truthy : JSVal → Bool
  | .bool b => b
  | .num n => n != 0
  | .str s => s != ""
  | .undef => false
  | .nullV => false
  | .obj _ => true

/-- The wait loop's acceptance test: `result || result === 0 || result === false`. -/
def qualifies (v : JSVal) : Bool :=
  truthy v || v == JSVal.num 0 || v == JSVal.bool false

/-- One poll attempt either produces a value or throws. -/
inductive PollResult where
  | value (v : JSVal)
  | throws (msg : String)
deriving DecidableEq, Repr

/-- Result of `WebDriverWait.until`: resolve with a qualifying value, or
throw a timeout error after the deadline. -/
inductive UntilOutcome where
  | resolved (v : JSVal)
  | timedOut (msg : String)
deriving DecidableEq, Repr

/-- The polling loop of `WebDriverWait.until`, with `lastErr` threaded
through exactly as in the source (set on a throw, never cleared). -/
def untilGo (errMsg : String) (lastErr : Option String) : List PollResult → UntilOutcome
  | [] =>
    .timedOut (match lastErr with
      | some m => errMsg ++ ": " ++ m
      | none => errMsg)
  | .value v :: ps => if qualifies v then .resolved v else untilGo errMsg lastErr ps
  | .throws m :: ps => untilGo errMsg (some m) ps

/-- `WebDriverWait.until` on the finite list of attempts made before the
deadline, starting with no recorded error. -/
def untilRun (errMsg : String) (polls : List PollResult) : UntilOutcome :=
  untilGo errMsg none polls

/-- The most recently thrown error message over a whole attempt sequence
(the value `lastErr` holds when the deadline passes). -/
def lastThrownMsg (polls : List PollResult) : Option String :=
  polls.foldl (fun acc p => match p with | .throws m => some m | _ => acc) none

/-! ### Canonical condition `until.elementIsNotVisible` (service.ts:217-229)

Per poll, the element is resolved and queried; the four observable cases
map to the condition's return value:
  visible              → `false as any`
  not visible          → `true`
  `isDisplayed` throws → `true`  (inner catch)
  resolution fails     → `true`  (outer catch). -/

/-- Observable state of the target element at one poll. -/
inductive ElemObs where
  | visibleE
  | hiddenE
  | displayedThrowsE
  | resolveFailE
deriving DecidableEq, Repr

/-- Return value of the `until.elementIsNotVisible` condition for one
observation; the condition itself never throws (both failure paths are
caught and return `true`). -/
def elementIsNotVisible (o : ElemObs) : PollResult :=
  .value (match o with
    | .visibleE => .bool false
    | .hiddenE => .bool true
    | .displayedThrowsE => .bool true
    | .resolveFailE => .bool true)

/-! ## XPath string literals (src/lib/by.ts, xpStringLiteral)

Strings are embedded as `List Char`.  `xpStringLiteral` is the source
function; `evalXp` is an evaluator for the XPath 1.0 expression fragment
the function can emit (quoted string literals and `concat(...)` of them),
used to state that the generated expression denotes the input string. -/

/-- Single-quote character. -/
def sq : Char := Char.ofNat 39

/-- Double-quote character. -/
def dq : Char := Char.ofNat 34

/-- JS `s.split("'")`: a quote starts a fresh fragment, any other
character is prepended to the current head fragment. -/
def splitSQ : List Char → List (List Char)
  | [] => [[]]
  | c :: cs =>
    if c = sq then [] :: splitSQ cs
    else (splitSQ cs).modifyHead (fun p => c :: p)

/-- JS `Array.prototype.join` with a list separator. -/
def joinWith (sep : List Char) : List (List Char) → List Char
  | [] => []
  | [p] => p
  | p :: q :: ps => p ++ sep ++ joinWith sep (q :: ps)

/-- Wrap a fragment in single quotes. -/
def wrapSQ (p : List Char) : List Char := sq :: p ++ [sq]

/-- The separator `', "\'", '` used between concat arguments. -/
def concatSep : List Char := [',', ' ', dq, sq, dq, ',', ' ']

/-- The characters of the prefix `concat(`. -/
def concatHead : List Char := ['c', 'o', 'n', 'c', 'a', 't', '(']

/-- xpStringLiteral from by.ts: single-quote wrap when no single quote is
present, double-quote wrap when no double quote is present, otherwise a
`concat()` of single-quoted fragments interleaved with a double-quoted
single quote. -/
def xpStringLiteral (s : List Char) : List Char :=
  if sq ∈ s then
    if dq ∈ s then
      concatHead ++ joinWith concatSep ((splitSQ s).map wrapSQ) ++ [')']
    else dq :: s ++ [dq]
  else wrapSQ s

/-- Scan up to an unescaped closing quote `q`; XPath 1.0 literals have no
escape mechanism, so the first `q` closes the literal. -/
def takeUntil (q : Char) : List Char → Option (List Char × List Char)
  | [] => none
  | c :: cs =>
    if c = q then some ([], cs)
    else
      match takeUntil q cs with
      | none => none
      | some (v, r) => some (c :: v, r)

/-- Parse one XPath string literal (single- or double-quoted), returning
its value and the remaining input. -/
def parseLit : List Char → Option (List Char × List Char)
  | [] => none
  | c :: cs =>
    if c = sq then takeUntil sq cs
    else if c = dq then takeUntil dq cs
    else none

/-- Parse the comma-separated literal arguments of `concat(`, up to the
closing parenthesis, and return their concatenation (the XPath 1.0 value
of the concat call).  Fuel bounds the recursion. -/
def parseArgs : Nat → List Char → Option (List Char)
  | 0, _ => none
  | fuel + 1, cs =>
    match parseLit cs with
    | none => none
    | some (v, rest) =>
      match rest with
      | [c] => if c = ')' then some v else none
      | c1 :: c2 :: cs2 =>
        if c1 = ',' then
          if c2 = ' ' then
            match parseArgs fuel cs2 with
            | none => none
            | some w => some (v ++ w)
          else none
        else none
      | [] => none

/-- Evaluate a whole XPath string expression of the fragment the literal
builder emits: a bare quoted literal, or `concat(lit, lit, ...)`. -/
def evalXp (e : List Char) : Option (List Char) :=
  if e.take 7 = concatHead then parseArgs (e.length + 1) (e.drop 7)
  else
    match parseLit e with
    | some (v, []) => some v
    | _ => none

/-! ## Log monitor ring buffer (src/lib/bidi/ LogMonitor)

`handleLogEntry` converts the entry and appends it:
  `this.logs.push(message);
   if (this.logs.length > this.maxLogs) { this.logs.shift(); }`
with `maxLogs = 1000`. -/

/-- BiDi log levels. -/
inductive LogLevelM where
  | debug | info | warn | errorL
deriving DecidableEq, Repr

/-- Render a level the way it appears as a console method name. -/
def levelName : LogLevelM → String
  | .debug => "debug"
  | .info => "info"
  | .warn => "warn"
  | .errorL => "error"

/-- An incoming `log.entryAdded` payload, restricted to the fields
`convertLogEntry` reads. -/
structure LogEntryM where
  isJavascript : Bool
  level : LogLevelM
  text : String
  timestamp : Nat
  method : Option String
deriving DecidableEq, Repr

/-- A converted log message (ConsoleMessage or JavaScriptError). -/
inductive LogMessageM where
  | consoleMsg (level : LogLevelM) (text : String) (timestamp : Nat) (method : String)
  | jsErrorMsg (text : String) (timestamp : Nat)
deriving DecidableEq, Repr

/-- convertLogEntry: tag dispatch on `entry.type`, with the console method
defaulting through JS `entry.method || entry.level` (empty string is
falsy). -/
def convertLogEntry (e : LogEntryM) : LogMessageM :=
  if e.isJavascript then .jsErrorMsg e.text e.timestamp
  else
    .consoleMsg e.level e.text e.timestamp
      (match e.method with
        | some m => if m = "" then levelName e.level else m
        | none => levelName e.level)

/-- Ring-buffer capacity (`maxLogs`). -/
def maxLogs : Nat := 1000

/-- Buffer update of `handleLogEntry`: push, then shift if over capacity. -/
def handleLogEntry (logs : List LogMessageM) (e : LogEntryM) : List LogMessageM :=
  let l := logs ++ [convertLogEntry e]
  if maxLogs < l.length then l.drop 1 else l

/-- getLogs returns a copy of the buffer. -/
def getLogs (logs : List LogMessageM) : List LogMessageM := logs

/-! ## BiDi connection multiplexer (src/lib/bidi/connection.ts)

`BiDiConnection` owns `messageId` (a monotonically incremented counter),
`pending` (an insertion-ordered `Map` from command id to the resolve/reject
pair of the Promise returned by `send`), `eventHandlers` (a `Map` from
method name to an insertion-ordered `Set` of listeners) and the `connected`
flag plus the socket.  The pending map is embedded as the list of pending
ids, and promise settlement is recorded in an explicit `outcomes` log:
entry `(i, o)` means the Promise returned by the send that was assigned id
`i` was settled with `o`. -/

/-- Command payload type (the serialized `params` map), kept opaque. -/
abbrev Params := String

/-- Result payload of a successful response, kept opaque. -/
abbrev Payload := String

/-- A transmitted BiDi command `{id, method, params}`. -/
structure BiDiCommand where
  id : Nat
  method : String
  params : Params
deriving DecidableEq, Repr

/-- Body of an inbound response: `type: "success"` with a result, or
`type: "error"` with a remote error code and message. -/
inductive RespBody where
  | success (result : Payload)
  | errorB (code : String) (message : String)
deriving DecidableEq, Repr

/-- An inbound response message `{id, type, result|error}`. -/
structure BiDiResponse where
  id : Nat
  body : RespBody
deriving DecidableEq, Repr

/-- An inbound event message `{type: "event", method, params}`. -/
structure BiDiEvent where
  method : String
  params : Params
deriving DecidableEq, Repr

/-- Settlement of the Promise returned by `send`. -/
inductive Outcome where
  | resolvedP (result : Payload)
  | rejectedP (msg : String)
deriving DecidableEq, Repr

/-- Socket readyState, as far as `isConnected` inspects it. -/
inductive WsState where
  | noSocket
  | open_
  | closedW
deriving DecidableEq, Repr

/-- State of one `BiDiConnection`. -/
structure ConnState where
  messageId : Nat
  pending : List Nat
  outcomes : List (Nat × Outcome)
  connected : Bool
  ws : WsState
  eventHandlers : List (String × List Nat)
  transmitted : List BiDiCommand
deriving DecidableEq, Repr

/-- `isConnected()`: `this.connected && this.ws?.readyState === WebSocket.OPEN`. -/
def isConnected (st : ConnState) : Bool :=
  st.connected && st.ws == WsState.open_

/-- `send(method, params)`: throw if not connected (state untouched),
otherwise assign `++this.messageId`, register the pending entry under the
new id, and transmit the serialized command.  The returned `Except` is the
immediate outcome of the call (the assigned id, or the thrown error). -/
def send (st : ConnState) (method : String) (params : Params) :
    Except String Nat × ConnState :=
  if isConnected st then
    let id := st.messageId + 1
    (.ok id,
      { st with
        messageId := id
        pending := st.pending ++ [id]
        transmitted := st.transmitted ++ [⟨id, method, params⟩] })
  else (.error "BiDi connection not established", st)

/-- Outcome with which `handleResponse` settles the pending Promise for a
response body: resolve with the result, or reject with
`BiDi error [code]: message`. -/
def respOutcome : RespBody → Outcome
  | .success v => .resolvedP v
  | .errorB c m => .rejectedP ("BiDi error [" ++ c ++ "]: " ++ m)

/-- `handleResponse`: look up the pending entry by the response id; if
absent, return with no effect; otherwise evict the entry and settle its
Promise from the response body. -/
def handleResponse (st : ConnState) (r : BiDiResponse) : ConnState :=
  if r.id ∈ st.pending then
    { st with
      pending := st.pending.erase r.id
      outcomes := st.outcomes ++ [(r.id, respOutcome r.body)] }
  else st

/-- Payload with which a listener is invoked: exact-name listeners receive
the event params; wildcard listeners receive the params with the method
name spread in. -/
inductive EventPayload where
  | exactP (params : Params)
  | mergedP (method : String) (params : Params)
deriving DecidableEq, Repr

/-- One listener invocation (listener identity and payload). -/
structure Invocation where
  listener : Nat
  payload : EventPayload
deriving DecidableEq, Repr

/-- Listener lookup in the `eventHandlers` map; a missing key means no
listeners. -/
def listenersFor (ehs : List (String × List Nat)) (m : String) : List Nat :=
  match ehs.lookup m with
  | some ls => ls
  | none => []

/-- Result of dispatching one event: the listener invocations that
happened, in order, and the messages of the exceptions that were caught
and logged. -/
structure DispatchResult where
  invoked : List Invocation
  logged : List String
deriving DecidableEq, Repr

/-- The `for (const handler of handlers) { try { handler(...) } catch
(err) { console.error(...) } }` loop: `beh l pay` is listener `l` run on
payload `pay`; a thrown error is appended to the log and the loop
continues with the next listener. -/
def dispatchLoop (beh : Nat → EventPayload → Except String Unit)
    (pay : EventPayload) (ls : List Nat) (acc : DispatchResult) : DispatchResult :=
  ls.foldl
    (fun a l =>
      match beh l pay with
      | .ok _ => { a with invoked := a.invoked ++ [⟨l, pay⟩] }
      | .error e => { invoked := a.invoked ++ [⟨l, pay⟩], logged := a.logged ++ [e] })
    acc

/-- `handleEvent`: run the exact-method listeners, then the wildcard
listeners, each call individually guarded by try/catch. -/
def handleEvent (beh : Nat → EventPayload → Except String Unit)
    (ehs : List (String × List Nat)) (ev : BiDiEvent) : DispatchResult :=
  dispatchLoop beh (.mergedP ev.method ev.params) (listenersFor ehs "*")
    (dispatchLoop beh (.exactP ev.params) (listenersFor ehs ev.method) ⟨[], []⟩)

/-- An inbound message after `handleMessage`'s classification: it carries a
defined id (a command response), is tagged `type: "event"`, or is neither
(including unparseable JSON, which is logged and dropped). -/
inductive BiDiMessage where
  | response (r : BiDiResponse)
  | event (e : BiDiEvent)
  | unparseable (raw : String)
deriving DecidableEq, Repr

/-- `handleMessage`'s effect on the connection state: responses go through
`handleResponse`; events are dispatched to listeners, which mutates no
connection state; malformed input is dropped. -/
def handleMessage (st : ConnState) (m : BiDiMessage) : ConnState :=
  match m with
  | .response r => handleResponse st r
  | .event _ => st
  | .unparseable _ => st

/-- Sequential issuance of several `send` calls, collecting the assigned
ids in issuance order (a failed send assigns no id). -/
def sendAll (st : ConnState) : List (String × Params) → List Nat × ConnState
  | [] => ([], st)
  | c :: cs =>
    match send st c.1 c.2 with
    | (.ok id, st2) =>
      let r := sendAll st2 cs
      (id :: r.1, r.2)
    | (.error _, st2) => sendAll st2 cs

/-- Processing a sequence of inbound responses in arrival order. -/
def processAll (st : ConnState) (rs : List BiDiResponse) : ConnState :=
  rs.foldl handleResponse st

/-! ## Network interceptor (src/lib/bidi/network.ts)

`NetworkInterceptor` stores one handler per server-assigned intercept id in
the insertion-ordered `handlers` map; the association list below keeps
registration order.  A handler either returns a mock response, returns
nothing (continue), or throws. -/

/-- Behaviour of one registered request handler. -/
inductive HandlerBeh where
  | returns (r : Option Payload)
  | throwsH (msg : String)
deriving DecidableEq, Repr

/-- The fields of a `network.beforeRequestSent` event that
`handleBeforeRequestSent` reads. -/
structure BRSEvent where
  isBlocked : Bool
  intercepts : List String
  requestId : String
deriving DecidableEq, Repr

/-- Command sent to the remote end to resolve a blocked request. -/
inductive NetCommand where
  | provideResponse (request : String) (response : Payload)
  | continueRequest (request : String)
deriving DecidableEq, Repr

/-- The `for (const interceptId of event.intercepts)` loop: skip ids with
no registered handler; on the first id with one, invoke it and resolve the
request (mock response → provideResponse; nothing → continueRequest; throw
→ log and continueRequest), then return.  If the loop falls through, the
request is continued unmodified.  Returns the invoked intercept id (if
any) and the commands issued. -/
def brsLoop (handlers : List (String × HandlerBeh)) (requestId : String) :
    List String → Option String × List NetCommand
  | [] => (none, [.continueRequest requestId])
  | iid :: rest =>
    match handlers.lookup iid with
    | none => brsLoop handlers requestId rest
    | some (.returns (some r)) => (some iid, [.provideResponse requestId r])
    | some (.returns none) => (some iid, [.continueRequest requestId])
    | some (.throwsH _) => (some iid, [.continueRequest requestId])

/-- `handleBeforeRequestSent`: ignore events that are not blocked or carry
no intercept ids, otherwise run the handler-selection loop. -/
def handleBeforeRequestSent (handlers : List (String × HandlerBeh))
    (ev : BRSEvent) : Option String × List NetCommand :=
  if !ev.isBlocked || ev.intercepts.isEmpty then (none, [])
  else brsLoop handlers ev.requestId ev.intercepts

/-- Modelled from the spec: "the first-registered intercept's handler
among the event's intercept ids" — the id of the first entry in
registration order whose intercept id occurs among the event's ids.  Used
only to compare the claimed selection rule with the source's. -/
def specFirstRegisteredAmong (handlers : List (String × HandlerBeh))
    (ids : List String) : Option String :=
  (handlers.find? (fun p => p.1 ∈ ids)).map (fun p => p.1)

/-! ## BiDi cookie write path (src/lib/bidi/storage.ts, setCookiesBiDi)

The function accepts `NetworkCookie[] | PartialCookie[]`; `PartialCookie`
has optional `secure` and `sameSite`, so those fields are embedded as
`Option`.  JS `!secure` is true for both `false` and `undefined`. -/

/-- The `sameSite` enumeration of the BiDi cookie model. -/
inductive SameSite where
  | strictS
  | laxS
  | noneS
  | defaultS
deriving DecidableEq, Repr

/-- A cookie as passed to `setCookiesBiDi` (the `PartialCookie` shape,
which `NetworkCookie` values also fit). -/
structure CookieIn where
  name : String
  value : String
  domain : String
  path : Option String
  httpOnly : Option Bool
  secure : Option Bool
  sameSite : Option SameSite
  expiry : Option Nat
deriving DecidableEq, Repr

/-- The `cookie` field of the `storage.setCookie` command built for one
input cookie: `sameSite` is rewritten to `'lax'` when it is `'none'` and
`!secure` holds; every other field is copied through. -/
def setCookieParams (c : CookieIn) : CookieIn :=
  let sameSite :=
    if c.sameSite = some SameSite.noneS && !(c.secure = some true) then
      some SameSite.laxS
    else c.sameSite
  { c with sameSite := sameSite }

/-- A poll attempt that does not qualify for resolution (so the loop keeps
going): a non-qualifying value or a throw. -/
def nonQualifying : PollResult → Bool
  | .value v => !(qualifies v)
  | .throws _ => true

/-- The timeout-message rule claimed for the wait engine: the timeout
error embeds the last thrown error's message when the final attempt threw,
and is the bare message when the final attempt did not throw. -/
def untilClaimC5At (errMsg : String) (polls : List PollResult) : Prop :=
  match untilRun errMsg polls with
  | .resolved _ => True
  | .timedOut msg =>
    match polls.getLast? with
    | some (.throws m) => msg = errMsg ++ ": " ++ m
    | _ => msg = errMsg

/-- The selection rule claimed for the interceptor: on a blocked event
with intercept ids, the invoked handler is the first-registered
intercept's handler among the event's ids. -/
def c3ClaimAt (handlers : List (String × HandlerBeh)) (ev : BRSEvent) : Prop :=
  ev.isBlocked = true → ev.intercepts ≠ [] →
    (handleBeforeRequestSent handlers ev).1 = specFirstRegisteredAmong handlers ev.intercepts

/-- A listener behaviour where listener 1 throws and every other listener
returns normally (used to exercise the catch in the dispatch loop). -/
def behThrow1 : Nat → EventPayload → Except String Unit :=
  fun l _ => if l = 1 then .error "listener boom" else .ok ()

/-- A listener behaviour where every listener returns normally. -/
def behOk : Nat → EventPayload → Except String Unit :=
  fun _ _ => .ok ()

/-- The claim's per-cookie correlation between input and transmitted
cookie: the `('none', false)` combination is downgraded to `'lax'` with
`secure` still `false`, and every other combination keeps its `sameSite`
unchanged. -/
def cookieClaimAt (c : CookieIn) : Prop :=
  (c.sameSite = some SameSite.noneS ∧ c.secure = some false →
    (setCookieParams c).sameSite = some SameSite.laxS ∧
      (setCookieParams c).secure = some false) ∧
  (¬(c.sameSite = some SameSite.noneS ∧ c.secure = some false) →
    (setCookieParams c).sameSite = c.sameSite)

/-! ## Theorems -/

/-- C10: whenever the connection is not established, `send` fails with the
error `BiDi connection not established` and returns the state unchanged:
the message-id counter is not incremented, no pending entry is registered,
and nothing is transmitted. -/
theorem send_not_connected (st : ConnState) (method : String) (params : Params)
    (h : isConnected st = false) :
    send st method params = (.error "BiDi connection not established", st) := by
  simp [send, h]

/-- Witness for C10 at a connection whose socket was closed. -/
theorem send_not_connected_witness :
    isConnected ⟨3, [2], [], false, .closedW, [], []⟩ = false ∧
    send ⟨3, [2], [], false, .closedW, [], []⟩ "session.subscribe" "pe" =
      (.error "BiDi connection not established", ⟨3, [2], [], false, .closedW, [], []⟩) :=
  ⟨by decide, send_not_connected ⟨3, [2], [], false, .closedW, [], []⟩ "session.subscribe" "pe"
    (by decide)⟩

/-- C9: an inbound response whose id has no pending entry is discarded
without effect — no Promise is settled and the whole connection state
(pending map, event-handler registrations, connected flag) is unchanged. -/
theorem response_unknown_id_no_effect (st : ConnState) (r : BiDiResponse)
    (h : r.id ∉ st.pending) :
    handleMessage st (.response r) = st := by
  simp only [handleMessage, handleResponse]
  rw [if_neg (by simpa using h)]

/-- Witness for C9: a late response for an already-evicted id 2. -/
theorem response_unknown_id_no_effect_witness :
    (2 : Nat) ∉ (⟨5, [4], [], true, .open_, [("log.entryAdded", [7])], []⟩ : ConnState).pending ∧
    handleMessage (⟨5, [4], [], true, .open_, [("log.entryAdded", [7])], []⟩ : ConnState)
        (.response ⟨2, .success "late"⟩) =
      (⟨5, [4], [], true, .open_, [("log.entryAdded", [7])], []⟩ : ConnState) :=
  ⟨by decide,
    response_unknown_id_no_effect
      (⟨5, [4], [], true, .open_, [("log.entryAdded", [7])], []⟩ : ConnState)
      ⟨2, .success "late"⟩ (by decide)⟩

/-- C8 counterexample: a cookie with `sameSite: 'none'` and `secure`
absent (`undefined`) is not covered by the claimed downgrade case, yet its
`sameSite` is still rewritten to `'lax'` because JS `!secure` is true for
`undefined`; so "any other sameSite/secure combination is transmitted
unchanged" fails at this cookie. -/
theorem setCookie_claim_counterexample :
    ¬ cookieClaimAt
        { name := "sid", value := "v", domain := "example.com", path := none,
          httpOnly := none, secure := none, sameSite := some SameSite.noneS,
          expiry := none } := by
  unfold cookieClaimAt
  decide

/-- C8 (amended): a cookie whose `sameSite` is `'none'` and whose `secure`
flag is not `true` (false or absent) is transmitted with `sameSite 'lax'`
and its `secure` flag unchanged, and is not rejected; every other
combination keeps `sameSite` unchanged.  All other fields are always
copied through. -/
theorem setCookie_sameSite_downgrade (c : CookieIn) :
    (c.sameSite = some SameSite.noneS → c.secure ≠ some true →
      (setCookieParams c).sameSite = some SameSite.laxS) ∧
    (¬(c.sameSite = some SameSite.noneS ∧ c.secure ≠ some true) →
      (setCookieParams c).sameSite = c.sameSite) ∧
    (setCookieParams c).secure = c.secure ∧
    (setCookieParams c).name = c.name ∧
    (setCookieParams c).value = c.value ∧
    (setCookieParams c).domain = c.domain ∧
    (setCookieParams c).path = c.path ∧
    (setCookieParams c).httpOnly = c.httpOnly ∧
    (setCookieParams c).expiry = c.expiry := by
  refine ⟨?_, ?_, ?_, rfl, rfl, rfl, rfl, rfl, rfl⟩
  · intro h1 h2
    simp [setCookieParams, h1, h2]
  · intro h
    by_cases h1 : c.sameSite = some SameSite.noneS
    · have h2 : c.secure = some true := by
        by_contra hc
        exact h ⟨h1, hc⟩
      simp [setCookieParams, h1, h2]
    · simp [setCookieParams, h1]
  · by_cases h1 : c.sameSite = some SameSite.noneS <;>
      by_cases h2 : c.secure = some true <;>
        simp [setCookieParams, h1, h2]

/-- Witness for C8: the `('none', secure: false)` cookie is transmitted
with `sameSite 'lax'`. -/
theorem setCookie_sameSite_downgrade_witness :
    (setCookieParams
        { name := "sid", value := "v", domain := "example.com", path := none,
          httpOnly := none, secure := some false, sameSite := some SameSite.noneS,
          expiry := none }).sameSite = some SameSite.laxS :=
  (setCookie_sameSite_downgrade
      { name := "sid", value := "v", domain := "example.com", path := none,
        httpOnly := none, secure := some false, sameSite := some SameSite.noneS,
        expiry := none }).1 rfl (by decide)

/-- C2: evaluation of the wait engine at the failing input.  With the
element resolvable and visible at every poll, `until.elementIsNotVisible`
returns boolean `false`, which the loop's test
`result || result === 0 || result === false` accepts as a final result: the
wait resolves with `false` on the first poll instead of polling until the
deadline and throwing a timeout error. -/
theorem elementIsNotVisible_visible_resolves_immediately :
    untilRun "Wait timed out after 5000ms"
        ([ElemObs.visibleE, ElemObs.visibleE, ElemObs.visibleE].map elementIsNotVisible) =
      .resolved (JSVal.bool false) := by
  decide

lemma handleLogEntry_fold (es : List LogEntryM) :
    ∀ acc : List LogMessageM, acc.length ≤ maxLogs →
      es.foldl handleLogEntry acc =
        (acc ++ es.map convertLogEntry).drop (acc.length + es.length - maxLogs) := by
  induction es with
  | nil =>
    intro acc hacc
    have h0 : acc.length - maxLogs = 0 := by omega
    simp [h0]
  | cons e es ih =>
    intro acc hacc
    rw [List.foldl_cons]
    by_cases hfull : acc.length = maxLogs
    · have hmax : 0 < maxLogs := by decide
      obtain ⟨a, l, rfl⟩ : ∃ a l, acc = a :: l := by
        cases acc with
        | nil => simp [maxLogs] at hfull
        | cons a l => exact ⟨a, l, rfl⟩
      have hstep : handleLogEntry (a :: l) e = l ++ [convertLogEntry e] := by
        have : maxLogs < (a :: l).length + 1 := by omega
        simp only [handleLogEntry, List.cons_append]
        rw [if_pos (by simpa using this)]
        simp
      rw [hstep, ih _ (by simp at hfull ⊢; omega)]
      have hidx1 : (l ++ [convertLogEntry e]).length + es.length - maxLogs = es.length := by
        simp at hfull ⊢
        omega
      have hidx2 : (a :: l).length + (e :: es).length - maxLogs = es.length + 1 := by
        simp at hfull ⊢
        omega
      rw [hidx1, hidx2]
      simp [List.append_assoc]
    · have hle : acc.length + 1 ≤ maxLogs := by omega
      have hstep : handleLogEntry acc e = acc ++ [convertLogEntry e] := by
        simp only [handleLogEntry]
        rw [if_neg (by simp; omega)]
      rw [hstep, ih _ (by simp; omega)]
      have hidx : (acc ++ [convertLogEntry e]).length + es.length - maxLogs =
          acc.length + (e :: es).length - maxLogs := by
        simp
        omega
      rw [hidx]
      simp [List.append_assoc]

/-- C6: the log buffer is a bounded ring of capacity 1000 — after handling
any sequence of `n` entries starting from an empty buffer, `getLogs`
returns exactly the most recent `min n 1000` converted messages, in
arrival order (the oldest entries having been evicted first). -/
theorem logBuffer_keeps_latest (es : List LogEntryM) :
    getLogs (es.foldl handleLogEntry []) =
      (es.map convertLogEntry).drop (es.length - maxLogs) ∧
    (getLogs (es.foldl handleLogEntry [])).length = min es.length maxLogs := by
  have h := handleLogEntry_fold es [] (by simp)
  simp only [List.nil_append, List.length_nil, Nat.zero_add] at h
  refine ⟨by simpa [getLogs] using h, ?_⟩
  simp only [getLogs, h, List.length_drop, List.length_map]
  omega

lemma untilGo_timeout (errMsg : String) :
    ∀ (polls : List PollResult) (lastErr : Option String),
      (∀ p ∈ polls, nonQualifying p = true) →
      untilGo errMsg lastErr polls =
        .timedOut
          (match polls.foldl (fun acc p => match p with | .throws m => some m | _ => acc) lastErr with
            | some m => errMsg ++ ": " ++ m
            | none => errMsg) := by
  intro polls
  induction polls with
  | nil => intro lastErr _; rfl
  | cons p ps ih =>
    intro lastErr h
    cases p with
    | value v =>
      have hv : qualifies v = false := by
        have := h (.value v) (by simp)
        simpa [nonQualifying] using this
      simpa [untilGo, hv] using ih lastErr (fun q hq => h q (by simp [hq]))
    | throws m =>
      simpa [untilGo] using ih (some m) (fun q hq => h q (by simp [hq]))

/-- C5 counterexample: with attempts `[throw "boom", return undefined]`
the final attempt does not throw, yet the timeout error still embeds
"boom", because `lastErr` is set on any throw and never cleared; the
claimed "no underlying error message when the final attempt did not
throw" fails at this input. -/
theorem until_claim_counterexample :
    ¬ untilClaimC5At "Wait timed out after 5000ms"
        [.throws "boom", .value JSVal.undef] := by
  unfold untilClaimC5At
  show ¬ ("Wait timed out after 5000ms" ++ ": " ++ "boom" = "Wait timed out after 5000ms")
  decide

/-- C5 (amended): when every attempt fails to qualify, the wait fails with
a timeout error that embeds the message of the most recently thrown error
if any attempt threw — whether or not the final attempt threw — and the
bare timeout message only when no attempt ever threw. -/
theorem until_timeout_message (errMsg : String) (polls : List PollResult)
    (h : ∀ p ∈ polls, nonQualifying p = true) :
    untilRun errMsg polls =
      .timedOut
        (match lastThrownMsg polls with
          | some m => errMsg ++ ": " ++ m
          | none => errMsg) :=
  untilGo_timeout errMsg polls none h

/-- Witness for C5 at the two-attempt sequence from the counterexample. -/
theorem until_timeout_message_witness :
    (∀ p ∈ ([.throws "boom", .value JSVal.undef] : List PollResult), nonQualifying p = true) ∧
    untilRun "Wait timed out after 5000ms" [.throws "boom", .value JSVal.undef] =
      .timedOut
        (match lastThrownMsg [.throws "boom", .value JSVal.undef] with
          | some m => "Wait timed out after 5000ms" ++ ": " ++ m
          | none => "Wait timed out after 5000ms") :=
  ⟨by decide,
    until_timeout_message "Wait timed out after 5000ms"
      [.throws "boom", .value JSVal.undef] (by decide)⟩

lemma dispatchLoop_invoked (beh : Nat → EventPayload → Except String Unit)
    (pay : EventPayload) :
    ∀ (ls : List Nat) (acc : DispatchResult),
      (dispatchLoop beh pay ls acc).invoked =
        acc.invoked ++ ls.map (fun l => ⟨l, pay⟩) := by
  intro ls
  induction ls with
  | nil => intro acc; simp [dispatchLoop]
  | cons l ls ih =>
    intro acc
    have hunf : dispatchLoop beh pay (l :: ls) acc =
        dispatchLoop beh pay ls
          (match beh l pay with
            | .ok _ => { acc with invoked := acc.invoked ++ [⟨l, pay⟩] }
            | .error e => ⟨acc.invoked ++ [⟨l, pay⟩], acc.logged ++ [e]⟩) := by
      simp only [dispatchLoop, List.foldl_cons]
    rw [hunf]
    cases hb : beh l pay with
    | ok u => rw [ih]; simp
    | error e => rw [ih]; simp

/-- C4: delivering one event invokes the listeners registered for the
exact method name and then the wildcard listeners, in registration order,
for every listener behaviour — a listener that throws is caught and does
not prevent any other listener from being invoked — and, since the
registration sets hold each listener once (`Set` semantics, expressed as
the `Nodup` hypotheses), each listener is invoked exactly once. -/
theorem handleEvent_fanout (beh : Nat → EventPayload → Except String Unit)
    (ehs : List (String × List Nat)) (ev : BiDiEvent) :
    (handleEvent beh ehs ev).invoked =
      (listenersFor ehs ev.method).map (fun l => ⟨l, EventPayload.exactP ev.params⟩) ++
        (listenersFor ehs "*").map (fun l => ⟨l, EventPayload.mergedP ev.method ev.params⟩) ∧
    ((listenersFor ehs ev.method).Nodup →
      ∀ l ∈ listenersFor ehs ev.method,
        (handleEvent beh ehs ev).invoked.count ⟨l, EventPayload.exactP ev.params⟩ = 1) ∧
    ((listenersFor ehs "*").Nodup →
      ∀ l ∈ listenersFor ehs "*",
        (handleEvent beh ehs ev).invoked.count ⟨l, EventPayload.mergedP ev.method ev.params⟩ = 1) := by
  have hinv : (handleEvent beh ehs ev).invoked =
      (listenersFor ehs ev.method).map (fun l => ⟨l, EventPayload.exactP ev.params⟩) ++
        (listenersFor ehs "*").map (fun l => ⟨l, EventPayload.mergedP ev.method ev.params⟩) := by
    simp only [handleEvent]
    rw [dispatchLoop_invoked, dispatchLoop_invoked]
    simp
  have hinj1 : Function.Injective
      (fun l => (⟨l, EventPayload.exactP ev.params⟩ : Invocation)) := by
    intro a b hab
    simpa using hab
  have hinj2 : Function.Injective
      (fun l => (⟨l, EventPayload.mergedP ev.method ev.params⟩ : Invocation)) := by
    intro a b hab
    simpa using hab
  refine ⟨hinv, ?_, ?_⟩
  · intro hnd l hl
    rw [hinv, List.count_append]
    rw [List.count_map_of_injective _ _ hinj1]
    have h0 : ((listenersFor ehs "*").map
        (fun l => (⟨l, EventPayload.mergedP ev.method ev.params⟩ : Invocation))).count
          ⟨l, EventPayload.exactP ev.params⟩ = 0 := by
      rw [List.count_eq_zero]
      simp
    rw [h0, List.count_eq_one_of_mem hnd hl]
  · intro hnd l hl
    rw [hinv, List.count_append]
    rw [List.count_map_of_injective _ _ hinj2]
    have h0 : ((listenersFor ehs ev.method).map
        (fun l => (⟨l, EventPayload.exactP ev.params⟩ : Invocation))).count
          ⟨l, EventPayload.mergedP ev.method ev.params⟩ = 0 := by
      rw [List.count_eq_zero]
      simp
    rw [h0, List.count_eq_one_of_mem hnd hl]

/-- Witness for C4: two exact listeners (one of which throws) and one
wildcard listener; listener 2 is still invoked exactly once. -/
theorem handleEvent_fanout_witness :
    (handleEvent behThrow1 [("log.entryAdded", [1, 2]), ("*", [3])]
        ⟨"log.entryAdded", "pp"⟩).invoked.count ⟨2, EventPayload.exactP "pp"⟩ = 1 :=
  (handleEvent_fanout behThrow1 [("log.entryAdded", [1, 2]), ("*", [3])]
      ⟨"log.entryAdded", "pp"⟩).2.1 (by decide) 2 (by decide)

lemma brsLoop_first (handlers : List (String × HandlerBeh)) (rid : String) :
    ∀ ids : List String,
      (brsLoop handlers rid ids).1 = ids.find? (fun i => (handlers.lookup i).isSome) ∧
      ((∀ i ∈ ids, handlers.lookup i = none) →
        brsLoop handlers rid ids = (none, [.continueRequest rid])) := by
  intro ids
  induction ids with
  | nil => exact ⟨rfl, fun _ => rfl⟩
  | cons i rest ih =>
    cases hl : handlers.lookup i with
    | none =>
      refine ⟨?_, ?_⟩
      · rw [List.find?]
        simp only [brsLoop, hl, Option.isSome_none]
        exact ih.1
      · intro h
        simp only [brsLoop, hl]
        exact ih.2 (fun j hj => h j (by simp [hj]))
    | some beh =>
      refine ⟨?_, ?_⟩
      · rw [List.find?]
        simp only [hl, Option.isSome_some, cond_true]
        cases beh with
        | returns r =>
          cases r with
          | none => simp [brsLoop, hl]
          | some v => simp [brsLoop, hl]
        | throwsH m => simp [brsLoop, hl]
      · intro h
        exact absurd (h i (by simp)) (by simp [hl])

/-- C3 counterexample: with intercepts registered in order A then B, and
an event whose intercept-id list is `["B", "A"]`, the loop iterates the
event's id list and invokes B's handler, not the first-registered A's; so
"the first-registered intercept's handler among the event's intercept ids"
fails at this input. -/
theorem beforeRequestSent_claim_counterexample :
    ¬ c3ClaimAt [("A", .returns none), ("B", .returns none)] ⟨true, ["B", "A"], "r1"⟩ := by
  unfold c3ClaimAt
  decide

/-- C3 (amended): on a blocked event carrying intercept ids, at most one
locally registered handler is invoked — the handler of the first id in the
event's intercept-id list that has one — and if no id in that list has a
registered handler, the request is continued unmodified. -/
theorem beforeRequestSent_first_match (handlers : List (String × HandlerBeh)) (ev : BRSEvent)
    (hb : ev.isBlocked = true) (hne : ev.intercepts ≠ []) :
    (handleBeforeRequestSent handlers ev).1 =
      ev.intercepts.find? (fun i => (handlers.lookup i).isSome) ∧
    ((∀ i ∈ ev.intercepts, handlers.lookup i = none) →
      handleBeforeRequestSent handlers ev = (none, [.continueRequest ev.requestId])) := by
  have hcond : (!ev.isBlocked || ev.intercepts.isEmpty) = false := by
    simp [hb, hne]
  have hloop := brsLoop_first handlers ev.requestId ev.intercepts
  constructor
  · simp only [handleBeforeRequestSent, hcond, Bool.false_eq_true, if_false]
    exact hloop.1
  · intro h
    simp only [handleBeforeRequestSent, hcond, Bool.false_eq_true, if_false]
    exact hloop.2 h

/-- Witness for C3: the handler invoked for event ids `["B", "A"]` is the
first id in the event list with a registered handler (B). -/
theorem beforeRequestSent_first_match_witness :
    (handleBeforeRequestSent [("A", HandlerBeh.returns (some "mk")), ("B", HandlerBeh.returns none)]
        ⟨true, ["B", "A"], "r1"⟩).1 =
      (["B", "A"] : List String).find?
        (fun i =>
          (([("A", HandlerBeh.returns (some "mk")), ("B", HandlerBeh.returns none)] :
              List (String × HandlerBeh)).lookup i).isSome) :=
  (beforeRequestSent_first_match
      [("A", HandlerBeh.returns (some "mk")), ("B", HandlerBeh.returns none)]
      ⟨true, ["B", "A"], "r1"⟩ (by decide) (by decide)).1

lemma sendAll_spec (cmds : List (String × Params)) :
    ∀ st : ConnState, isConnected st = true →
      (sendAll st cmds).1 = List.range' (st.messageId + 1) cmds.length ∧
      (sendAll st cmds).2.pending =
        st.pending ++ List.range' (st.messageId + 1) cmds.length ∧
      (sendAll st cmds).2.outcomes = st.outcomes ∧
      (sendAll st cmds).2.messageId = st.messageId + cmds.length := by
  induction cmds with
  | nil =>
    intro st h
    simp [sendAll]
  | cons c cs ih =>
    intro st h
    have hstep : sendAll st (c :: cs) =
        ((st.messageId + 1) ::
            (sendAll
              { st with
                messageId := st.messageId + 1
                pending := st.pending ++ [st.messageId + 1]
                transmitted := st.transmitted ++ [⟨st.messageId + 1, c.1, c.2⟩] } cs).1,
          (sendAll
            { st with
              messageId := st.messageId + 1
              pending := st.pending ++ [st.messageId + 1]
              transmitted := st.transmitted ++ [⟨st.messageId + 1, c.1, c.2⟩] } cs).2) := by
      simp [sendAll, send, h]
    have h2 : isConnected
        { st with
          messageId := st.messageId + 1
          pending := st.pending ++ [st.messageId + 1]
          transmitted := st.transmitted ++ [⟨st.messageId + 1, c.1, c.2⟩] } = true := by
      simpa [isConnected] using h
    obtain ⟨i1, i2, i3, i4⟩ := ih _ h2
    rw [hstep]
    refine ⟨?_, ?_, by simpa using i3, by simp only [i4]; simp; omega⟩
    · simp only [i1]
      simp [List.range'_succ]
    · simp only [i2]
      simp [List.range'_succ]

lemma processAll_spec (rs : List BiDiResponse) :
    ∀ st : ConnState,
      (∀ r ∈ rs, r.id ∈ st.pending) → (rs.map BiDiResponse.id).Nodup →
      (processAll st rs).outcomes =
        st.outcomes ++ rs.map (fun r => (r.id, respOutcome r.body)) := by
  induction rs with
  | nil =>
    intro st _ _
    simp [processAll]
  | cons r rest ih =>
    intro st hmem hnd
    have hr : r.id ∈ st.pending := hmem r (by simp)
    have hstep : handleResponse st r =
        { st with
          pending := st.pending.erase r.id
          outcomes := st.outcomes ++ [(r.id, respOutcome r.body)] } := by
      simp [handleResponse, hr]
    have hnotin : r.id ∉ rest.map BiDiResponse.id := by
      have := hnd
      simp only [List.map_cons, List.nodup_cons] at this
      exact this.1
    have hmem2 : ∀ q ∈ rest, q.id ∈ (handleResponse st r).pending := by
      intro q hq
      rw [hstep]
      have hqne : q.id ≠ r.id := by
        intro hcontra
        exact hnotin (hcontra ▸ List.mem_map_of_mem BiDiResponse.id hq)
      exact (List.mem_erase_of_ne hqne).2 (hmem q (by simp [hq]))
    have hnd2 : (rest.map BiDiResponse.id).Nodup := by
      simp only [List.map_cons, List.nodup_cons] at hnd
      exact hnd.2
    have := ih (handleResponse st r) hmem2 hnd2
    simp only [processAll, List.foldl_cons] at *
    rw [this, hstep]
    simp

/-- C1: starting from a connected multiplexer with no pending commands,
issuing any sequence of `send` calls assigns distinct, strictly increasing
ids (consecutive from the counter) and registers exactly one pending entry
per call; then, whatever the arrival order of the per-id responses (any
permutation, including reverse issuance order), each call's Promise is
settled with exactly its own response — resolved with that response's
result payload, or rejected with an error embedding the remote error code
and message when that response has type `error` — and never with another
call's response. -/
theorem bidi_send_correlation (st0 : ConnState) (cmds : List (String × Params))
    (body : Nat → RespBody) (rs : List BiDiResponse)
    (h0 : isConnected st0 = true) (hp : st0.pending = []) (ho : st0.outcomes = [])
    (hperm : rs.Perm ((sendAll st0 cmds).1.map (fun i => ⟨i, body i⟩))) :
    (sendAll st0 cmds).1 = List.range' (st0.messageId + 1) cmds.length ∧
    (sendAll st0 cmds).1.Pairwise (· < ·) ∧
    (sendAll st0 cmds).2.pending = (sendAll st0 cmds).1 ∧
    ∀ i ∈ (sendAll st0 cmds).1,
      (i, respOutcome (body i)) ∈ (processAll (sendAll st0 cmds).2 rs).outcomes ∧
      ∀ o, (i, o) ∈ (processAll (sendAll st0 cmds).2 rs).outcomes →
        o = respOutcome (body i) := by
  obtain ⟨hids, hpend, hout, _⟩ := sendAll_spec cmds st0 h0
  have hpair : (sendAll st0 cmds).1.Pairwise (· < ·) := by
    rw [hids]
    exact List.pairwise_lt_range' _ _
  have hpend2 : (sendAll st0 cmds).2.pending = (sendAll st0 cmds).1 := by
    rw [hpend, hp, hids, List.nil_append]
  have hmapid : ((sendAll st0 cmds).1.map (fun i => (⟨i, body i⟩ : BiDiResponse))).map
      BiDiResponse.id = (sendAll st0 cmds).1 := by
    simp [List.map_map, Function.comp_def]
  have hndids : (sendAll st0 cmds).1.Nodup := by
    rw [hids]
    exact List.nodup_range' _ _
  have hmemrs : ∀ r ∈ rs, r.id ∈ (sendAll st0 cmds).2.pending := by
    intro r hr
    have : r ∈ (sendAll st0 cmds).1.map (fun i => (⟨i, body i⟩ : BiDiResponse)) :=
      hperm.mem_iff.1 hr
    obtain ⟨i, hi, rfl⟩ := List.mem_map.1 this
    rw [hpend2]
    exact hi
  have hndrs : (rs.map BiDiResponse.id).Nodup := by
    have hpm : (rs.map BiDiResponse.id).Perm
        (((sendAll st0 cmds).1.map (fun i => (⟨i, body i⟩ : BiDiResponse))).map
          BiDiResponse.id) := hperm.map BiDiResponse.id
    rw [hmapid] at hpm
    exact hpm.nodup_iff.2 hndids
  have houtfin : (processAll (sendAll st0 cmds).2 rs).outcomes =
      rs.map (fun r => (r.id, respOutcome r.body)) := by
    rw [processAll_spec rs _ hmemrs hndrs, hout, ho, List.nil_append]
  refine ⟨hids, hpair, hpend2, ?_⟩
  intro i hi
  constructor
  · rw [houtfin]
    have : (⟨i, body i⟩ : BiDiResponse) ∈ rs :=
      hperm.mem_iff.2 (List.mem_map_of_mem _ hi)
    exact List.mem_map.2 ⟨⟨i, body i⟩, this, rfl⟩
  · intro o hio
    rw [houtfin] at hio
    obtain ⟨r, hr, hre⟩ := List.mem_map.1 hio
    have : r ∈ (sendAll st0 cmds).1.map (fun i => (⟨i, body i⟩ : BiDiResponse)) :=
      hperm.mem_iff.1 hr
    obtain ⟨j, _, rfl⟩ := List.mem_map.1 this
    have hji : j = i := by
      have := congrArg Prod.fst hre
      simpa using this
    have hoeq := congrArg Prod.snd hre
    simp only at hoeq
    rw [← hoeq, hji]

/-- Witness for C1: two sends on a fresh connected state, with the
responses (one success, one remote error) arriving in reverse order. -/
theorem bidi_send_correlation_witness :
    (1, respOutcome (.success "ok1")) ∈
      (processAll
          (sendAll (⟨0, [], [], true, .open_, [], []⟩ : ConnState)
            [("session.subscribe", "p1"), ("script.evaluate", "p2")]).2
          [⟨2, .errorB "invalid argument" "bad params"⟩, ⟨1, .success "ok1"⟩]).outcomes := by
  have h := bidi_send_correlation (⟨0, [], [], true, .open_, [], []⟩ : ConnState)
    [("session.subscribe", "p1"), ("script.evaluate", "p2")]
    (fun i => if i = 1 then .success "ok1" else .errorB "invalid argument" "bad params")
    [⟨2, .errorB "invalid argument" "bad params"⟩, ⟨1, .success "ok1"⟩]
    (by decide) rfl rfl (by decide)
  exact (h.2.2.2 1 (by decide)).1

lemma takeUntil_closes (q : Char) :
    ∀ (p r : List Char), q ∉ p → takeUntil q (p ++ q :: r) = some (p, r) := by
  intro p
  induction p with
  | nil =>
    intro r _
    rw [List.nil_append, takeUntil, if_pos rfl]
  | cons c cs ih =>
    intro r hq
    have hcq : ¬(c = q) := fun h => hq (by simp [h])
    have hcs : q ∉ cs := fun h => hq (by simp [h])
    rw [List.cons_append, takeUntil, if_neg hcq, ih r hcs]

lemma parseLit_single (p r : List Char) (hp : sq ∉ p) :
    parseLit (wrapSQ p ++ r) = some (p, r) := by
  have hshape : wrapSQ p ++ r = sq :: (p ++ sq :: r) := by
    simp [wrapSQ]
  rw [hshape, parseLit, if_pos rfl, takeUntil_closes sq p r hp]

lemma parseLit_double (s r : List Char) (hs : dq ∉ s) :
    parseLit ((dq :: s ++ [dq]) ++ r) = some (s, r) := by
  have hshape : (dq :: s ++ [dq]) ++ r = dq :: (s ++ dq :: r) := by
    simp
  rw [hshape, parseLit, if_neg (by decide : ¬(dq = sq)), if_pos rfl,
    takeUntil_closes dq s r hs]

lemma parseLit_sepTail (y : List Char) :
    parseLit (dq :: sq :: dq :: y) = some ([sq], y) := by
  rw [parseLit, if_neg (by decide : ¬(dq = sq)), if_pos rfl, takeUntil,
    if_neg (by decide : ¬(sq = dq)), takeUntil, if_pos rfl]

lemma splitSQ_ne_nil (s : List Char) : splitSQ s ≠ [] := by
  induction s with
  | nil => simp [splitSQ]
  | cons c cs ih =>
    rw [splitSQ]
    by_cases hc : c = sq
    · simp [hc]
    · rw [if_neg hc]
      cases h : splitSQ cs with
      | nil => exact absurd h ih
      | cons p ps => simp [List.modifyHead]

lemma splitSQ_no_sq (s : List Char) : ∀ p ∈ splitSQ s, sq ∉ p := by
  induction s with
  | nil =>
    intro p hp
    simp [splitSQ] at hp
    simp [hp]
  | cons c cs ih =>
    intro p hp
    rw [splitSQ] at hp
    by_cases hc : c = sq
    · rw [if_pos hc] at hp
      rcases List.mem_cons.1 hp with hp1 | hp1
      · simp [hp1]
      · exact ih p hp1
    · rw [if_neg hc] at hp
      cases h : splitSQ cs with
      | nil => exact absurd h (splitSQ_ne_nil cs)
      | cons q ps =>
        rw [h, List.modifyHead] at hp
        rcases List.mem_cons.1 hp with hp1 | hp1
        · subst hp1
          intro hin
          rcases List.mem_cons.1 hin with hin1 | hin1
          · exact hc hin1.symm
          · exact ih q (h ▸ List.mem_cons_self q ps) hin1
        · exact ih p (h ▸ List.mem_cons_of_mem q hp1)

lemma joinWith_splitSQ (s : List Char) : joinWith [sq] (splitSQ s) = s := by
  induction s with
  | nil => rfl
  | cons c cs ih =>
    rw [splitSQ]
    by_cases hc : c = sq
    · rw [if_pos hc, hc]
      cases h : splitSQ cs with
      | nil => exact absurd h (splitSQ_ne_nil cs)
      | cons p ps =>
        rw [h] at ih
        rw [joinWith]
        simpa using ih
    · rw [if_neg hc]
      cases h : splitSQ cs with
      | nil => exact absurd h (splitSQ_ne_nil cs)
      | cons p ps =>
        rw [h] at ih
        rw [List.modifyHead]
        cases ps with
        | nil =>
          rw [joinWith] at ih ⊢
          rw [ih]
        | cons q ps2 =>
          rw [joinWith] at ih ⊢
          rw [List.cons_append, List.cons_append, ih]

lemma parseArgs_concat :
    ∀ (parts : List (List Char)) (fuel : Nat),
      parts ≠ [] → (∀ p ∈ parts, sq ∉ p) →
      (joinWith concatSep (parts.map wrapSQ) ++ [')']).length ≤ fuel →
      parseArgs fuel (joinWith concatSep (parts.map wrapSQ) ++ [')']) =
        some (joinWith [sq] parts) := by
  intro parts
  induction parts with
  | nil => intro fuel h; exact absurd rfl h
  | cons p rest ih =>
    intro fuel _ hnosq hfuel
    cases rest with
    | nil =>
      simp only [List.map_cons, List.map_nil, joinWith] at hfuel ⊢
      obtain ⟨f, rfl⟩ : ∃ f, fuel = f + 1 := by
        refine ⟨fuel - 1, ?_⟩
        have : 1 ≤ (wrapSQ p ++ [')']).length := by simp [wrapSQ]
        omega
      simp only [parseArgs]
      rw [parseLit_single p [')'] (hnosq p (by simp))]
      simp
    | cons p2 rest2 =>
      have hshape : joinWith concatSep ((p :: p2 :: rest2).map wrapSQ) ++ [')'] =
          wrapSQ p ++
            (',' :: ' ' ::
              (dq :: sq :: dq :: ',' :: ' ' ::
                (joinWith concatSep ((p2 :: rest2).map wrapSQ) ++ [')']))) := by
        simp only [List.map_cons, joinWith, concatSep]
        simp
      have hlen : 2 + (joinWith concatSep ((p2 :: rest2).map wrapSQ) ++ [')']).length ≤ fuel := by
        rw [hshape] at hfuel
        simp only [List.length_append, List.length_cons, wrapSQ] at hfuel ⊢
        simp at hfuel ⊢
        omega
      obtain ⟨f, rfl⟩ : ∃ f, fuel = f + 2 := ⟨fuel - 2, by omega⟩
      rw [hshape]
      simp only [parseArgs]
      rw [parseLit_single p _ (hnosq p (by simp))]
      simp only [if_pos rfl]
      rw [parseLit_sepTail]
      simp only [if_pos rfl]
      rw [ih f (by simp) (fun q hq => hnosq q (by simp [hq])) (by omega)]
      simp only [joinWith]
      cases rest2 with
      | nil => simp [joinWith]
      | cons r3 rs3 => simp [joinWith, List.append_assoc]

/-- C7: for every input string, the XPath string-literal builder produces
an expression that evaluates, as an XPath 1.0 string expression, to
exactly the input: a single-quoted literal when the input has no single
quote, a double-quoted literal when it has a single quote but no double
quote, and otherwise a `concat()` of alternating-quote fragments whose
concatenation is the input. -/
theorem xpStringLiteral_evaluates (s : List Char) :
    evalXp (xpStringLiteral s) = some s := by
  by_cases hsq : sq ∈ s
  · by_cases hdq : dq ∈ s
    · have hx : xpStringLiteral s =
          concatHead ++ (joinWith concatSep ((splitSQ s).map wrapSQ) ++ [')']) := by
        simp [xpStringLiteral, hsq, hdq]
      rw [hx, evalXp]
      rw [if_pos (List.take_left' (by rfl))]
      rw [List.drop_left' (by rfl)]
      rw [parseArgs_concat (splitSQ s) _ (splitSQ_ne_nil s) (splitSQ_no_sq s)
        (by simp [List.length_append]; omega)]
      rw [joinWith_splitSQ]
    · have hx : xpStringLiteral s = dq :: s ++ [dq] := by
        simp [xpStringLiteral, hsq, hdq]
      rw [hx, evalXp]
      have hne : (dq :: s ++ [dq]).take 7 ≠ concatHead := by
        have h7 : (dq :: s ++ [dq]).take 7 = dq :: (s ++ [dq]).take 6 := rfl
        rw [h7]
        intro h
        exact absurd (List.cons.inj h).1 (by decide)
      rw [if_neg hne]
      have := parseLit_double s [] hdq
      rw [List.append_nil] at this
      rw [this]
  · have hx : xpStringLiteral s = wrapSQ s := by
      simp [xpStringLiteral, hsq]
    rw [hx, evalXp]
    have hne : (wrapSQ s).take 7 ≠ concatHead := by
      have h7 : (wrapSQ s).take 7 = sq :: (s ++ [sq]).take 6 := rfl
      rw [h7]
      intro h
      exact absurd (List.cons.inj h).1 (by decide)
    rw [if_neg hne]
    have := parseLit_single s [] hsq
    rw [List.append_nil] at this
    rw [this]

end Craft
